import Mathlib

/-!
Verification of the artifact versioning and text-editing subsystem of the
allcontext backend.  Content strings are modelled as lists of characters;
the Python text utilities (src/backend/app/utils/text.py,
src/backend/app/utils/markdown.py) and the artifact service
(src/backend/app/services/artifacts.py) are embedded as executable Lean
functions, and the claims about them are settled below.
-/

/-- Python str.split on a single newline character: always returns at least
one (possibly empty) line. -/
def splitOnNl : List Char → List (List Char)
  | [] => [[]]
  | c :: rest =>
    if c = '\n' then [] :: splitOnNl rest
    else
      match splitOnNl rest with
      | [] => [[c]]
      | l :: ls => (c :: l) :: ls

/-- Python newline-join of a list of lines. -/
def joinNl : List (List Char) → List Char
  | [] => []
  | [l] => l
  | l :: l2 :: ls => l ++ '\n' :: joinNl (l2 :: ls)

/-- Python list.insert followed by newline re-join, with the 1-based bounds
check from insert_at_line (src/backend/app/utils/text.py lines 70-102);
returns none exactly where the source raises ValueError (range error). -/
def insertAtLine (content : List Char) (lineNumber : Int) (text : List Char) :
    Option (List Char) :=
  let lines := splitOnNl content
  if lineNumber < 1 ∨ (lines.length : Int) + 1 < lineNumber then none
  else
    let index := (lineNumber - 1).toNat
    if index = lines.length then some (joinNl (lines ++ [text]))
    else some (joinNl (lines.take index ++ text :: lines.drop index))

/-- Python str.isspace and the regex class of whitespace, restricted to the
ASCII whitespace characters. -/
def pyIsSpace (c : Char) : Bool :=
  c = ' ' || c = '\t' || c = '\n' || c = '\r' || c = '\x0b' || c = '\x0c'

/-- Python str.lstrip. -/
def pyLStrip (l : List Char) : List Char := l.dropWhile pyIsSpace

/-- Python str.rstrip. -/
def pyRStrip (l : List Char) : List Char := (l.reverse.dropWhile pyIsSpace).reverse

/-- Python str.strip. -/
def pyStrip (l : List Char) : List Char := pyRStrip (pyLStrip l)

/-- Whether pat is an initial segment of s, as a boolean. -/
def listStarts : List Char → List Char → Bool
  | [], _ => true
  | _ :: _, [] => false
  | p :: ps, c :: cs => if p = c then listStarts ps cs else false

/-- Python substring containment (the in operator on strings). -/
def containsSub (pat : List Char) : List Char → Bool
  | [] => listStarts pat []
  | c :: rest => listStarts pat (c :: rest) || containsSub pat rest

/-- Python str.count for a non-empty needle: counts non-overlapping
occurrences left to right.  The second argument is the number of characters
still to skip after a match was consumed. -/
def pyCountAux (old : List Char) : List Char → Nat → Nat
  | [], _ => 0
  | _ :: rest, s+1 => pyCountAux old rest s
  | c :: rest, 0 =>
    if listStarts old (c :: rest) then 1 + pyCountAux old rest (old.length - 1)
    else pyCountAux old rest 0

def pyCountOcc (old content : List Char) : Nat := pyCountAux old content 0

/-- Python str.replace with an integer count: replaces non-overlapping
occurrences left to right while the remaining count is non-zero; a negative
count therefore replaces every occurrence (Python treats any negative count
as "replace all").  The Nat argument is the number of characters still to
skip after a match was consumed. -/
def pyRepAux (old new : List Char) : List Char → Nat → Int → List Char
  | [], _, _ => []
  | _ :: rest, s+1, n => pyRepAux old new rest s n
  | c :: rest, 0, n =>
    if n ≠ 0 ∧ listStarts old (c :: rest) = true then
      new ++ pyRepAux old new rest (old.length - 1) (n - 1)
    else c :: pyRepAux old new rest 0 n

def pyReplace (old new content : List Char) (n : Int) : List Char :=
  pyRepAux old new content 0 n

/-- Replacement of exactly the first k occurrences (left to right,
non-overlapping), following the specification wording for find_and_replace;
used to compare the code against the claim. -/
def specReplaceAux (old new : List Char) : List Char → Nat → Nat → List Char
  | [], _, _ => []
  | _ :: rest, s+1, k => specReplaceAux old new rest s k
  | c :: rest, 0, k =>
    if k ≠ 0 ∧ listStarts old (c :: rest) = true then
      new ++ specReplaceAux old new rest (old.length - 1) (k - 1)
    else c :: specReplaceAux old new rest 0 k

def specReplace (old new content : List Char) (k : Nat) : List Char :=
  specReplaceAux old new content 0 k

/-- Entries of the disambiguation context built by validate_unique_match:
a matching line (1-based number, stripped line truncated to 80 chars) or the
trailing "... and N more" marker. -/
inductive CtxEntry where
  | line : Nat → List Char → CtxEntry
  | more : Nat → CtxEntry

deriving DecidableEq

/-- Error kinds raised by the text-editing primitives in
src/backend/app/utils/text.py (all ValueError in the source; distinguished
here by their message families). -/
inductive TextErr where
  | emptySearch : TextErr
  | notFound : TextErr
  | ambiguous : Nat → List CtxEntry → TextErr

deriving DecidableEq

deriving instance DecidableEq for Except

/-- find_and_replace (src/backend/app/utils/text.py lines 29-67). -/
def findAndReplace (content old new : List Char) (count : Option Int) :
    Except TextErr (List Char × Int) :=
  if old = [] then Except.error TextErr.emptySearch
  else
    let occurrences := pyCountOcc old content
    if occurrences = 0 then Except.error TextErr.notFound
    else
      match count with
      | none => Except.ok (pyReplace old new content (-1), (occurrences : Int))
      | some k => Except.ok (pyReplace old new content k, min k (occurrences : Int))

/-- Matching-line context collector of validate_unique_match
(src/backend/app/utils/text.py lines 128-137): the loop appends up to 3
matching lines and, immediately after the third one, the "... and
occurrences - 3 more" marker, then breaks. -/
def collectCtx (old : List Char) (occurrences : Nat) :
    List (List Char) → Nat → Nat → List CtxEntry
  | [], _, _ => []
  | ln :: rest, i, cnt =>
    if containsSub old ln = true then
      if 3 ≤ cnt + 1 then
        [CtxEntry.line i ((pyStrip ln).take 80), CtxEntry.more (occurrences - 3)]
      else
        CtxEntry.line i ((pyStrip ln).take 80) ::
          collectCtx old occurrences rest (i + 1) (cnt + 1)
    else collectCtx old occurrences rest (i + 1) cnt

/-- validate_unique_match (src/backend/app/utils/text.py lines 105-145). -/
def validateUniqueMatch (content old : List Char) (allowMultiple : Bool) :
    Except TextErr Nat :=
  if old = [] then Except.error TextErr.emptySearch
  else
    let occurrences := pyCountOcc old content
    if occurrences = 0 then Except.error TextErr.notFound
    else if 1 < occurrences ∧ allowMultiple = false then
      Except.error (TextErr.ambiguous occurrences
        (collectCtx old occurrences (splitOnNl content) 1 0))
    else Except.ok occurrences

def numLineEntries (ctx : List CtxEntry) : Nat :=
  (ctx.filter (fun e => match e with | CtxEntry.line _ _ => true | _ => false)).length

def ctxHasMore (ctx : List CtxEntry) : Bool :=
  ctx.any (fun e => match e with | CtxEntry.more _ => true | _ => false)

def countMatchingLines (old : List Char) (lines : List (List Char)) : Nat :=
  (lines.filter (fun ln => containsSub old ln)).length

/-- Replacement count promised by the claim for C5: all occurrences when the
limit is unset, min(limit, occurrences) when it is given. -/
def c5SpecCount (limit : Option Int) (occ : Nat) : Int :=
  match limit with
  | none => (occ : Int)
  | some k => min k (occ : Int)

/-- Claim C5 formalized at one input: on a non-empty needle, find_and_replace
fails with NotFound exactly when there is no occurrence, and otherwise
returns the content with the first (claimed count) occurrences replaced
left-to-right and non-overlapping, paired with that count. -/
def c5ClaimAt (content old new : List Char) (limit : Option Int) : Prop :=
  (old ≠ [] → pyCountOcc old content = 0 →
    findAndReplace content old new limit = Except.error TextErr.notFound)
  ∧ (old ≠ [] → pyCountOcc old content ≠ 0 →
    findAndReplace content old new limit =
      Except.ok (specReplace old new content (c5SpecCount limit (pyCountOcc old content)).toNat,
        c5SpecCount limit (pyCountOcc old content)))

/-- Claim C6 formalized at one input: whenever validate_unique_match with
allow_multiple false fails ambiguously, the context enumerates at most 3
matching lines and carries the "+N more" marker exactly when more matching
lines exist beyond the enumerated ones. -/
def c6ClaimAt (content old : List Char) : Prop :=
  ∀ occ ctx,
    validateUniqueMatch content old false = Except.error (TextErr.ambiguous occ ctx) →
      numLineEntries ctx ≤ 3 ∧
      (ctxHasMore ctx = true ↔
        numLineEntries ctx < countMatchingLines old (splitOnNl content))

/-- Backtracking step of the regex tail match for a heading pattern: after
the hash marks, the greedy whitespace group tries the whole leading whitespace
run first (length k) and gives characters back one at a time; the
captured group is then the maximal run of non-newline characters, which must
be non-empty and ends at a line end. -/
def tryK (l : List Char) : Nat → Option (List Char)
  | 0 => none
  | k + 1 =>
    let grp := (l.drop (k + 1)).takeWhile (fun c => !(c = '\n'))
    if grp = [] then tryK l k else some grp

/-- Match of the regex fragment one-or-more-whitespace then captured
non-newline run then line end, at the start of l (what follows the hash
marks in the heading patterns of
src/backend/app/utils/markdown.py lines 30 and 36). -/
def matchTail (l : List Char) : Option (List Char) :=
  tryK l (l.takeWhile pyIsSpace).length

/-- Multiline search for the level-1 heading pattern: candidate positions
are line starts, scanned left to right; at a candidate starting with a
single hash the tail matcher runs on the remainder. -/
def searchH1Aux : Bool → List Char → Option (List Char)
  | _, [] => none
  | atStart, c :: rest =>
    if atStart = true ∧ c = '#' then
      match matchTail rest with
      | some g => some g
      | none => searchH1Aux (decide (c = '\n')) rest
    else searchH1Aux (decide (c = '\n')) rest

def searchH1 (l : List Char) : Option (List Char) := searchH1Aux true l

/-- Multiline search for the level-2 heading pattern (two hash marks). -/
def searchH2Aux : Bool → List Char → Option (List Char)
  | _, [] => none
  | atStart, c :: rest =>
    if atStart = true ∧ c = '#' ∧ rest.head? = some '#' then
      match matchTail rest.tail with
      | some g => some g
      | none => searchH2Aux (decide (c = '\n')) rest
    else searchH2Aux (decide (c = '\n')) rest

def searchH2 (l : List Char) : Option (List Char) := searchH2Aux true l

/-- First line whose stripped form is non-empty, returning the stripped
line (loop in src/backend/app/utils/markdown.py lines 42-46). -/
def firstNonEmptyLine : List (List Char) → Option (List Char)
  | [] => none
  | ln :: rest =>
    let cleaned := pyStrip ln
    if cleaned = [] then firstNonEmptyLine rest else some cleaned

/-- extract_title_from_content (src/backend/app/utils/markdown.py lines
6-52) with explicit max_length parameter. -/
def extractTitleFromContentM (maxLength : Nat) (content : List Char) : List Char :=
  if content = [] then "Untitled".toList
  else
    let c := pyStrip content
    match searchH1 c with
    | some g =>
      let title := pyStrip g
      if maxLength < title.length then title.take maxLength else title
    | none =>
      match searchH2 c with
      | some g =>
        let title := pyStrip g
        if maxLength < title.length then title.take maxLength else title
      | none =>
        match firstNonEmptyLine (splitOnNl c) with
        | some cleaned =>
          if maxLength < cleaned.length then cleaned.take maxLength else cleaned
        | none => if 50 < c.length then pyStrip (c.take 50) ++ "...".toList else c

def extractTitleFromContent (content : List Char) : List Char :=
  extractTitleFromContentM 200 content

/-- Title extraction as the specification words it: empty content gives the
literal Untitled; otherwise, on the cleaned content, the first level-1
heading capture wins, else the first level-2 heading capture, else the first
non-empty line, else (all-whitespace content) the cleaned content itself;
results truncated to max_length with no ellipsis in the heading and line
cases. -/
def extractTitleSpec (maxLength : Nat) (content : List Char) : List Char :=
  if content = [] then "Untitled".toList
  else
    let cleaned := pyStrip content
    match searchH1 cleaned with
    | some g => (pyStrip g).take maxLength
    | none =>
      match searchH2 cleaned with
      | some g => (pyStrip g).take maxLength
      | none =>
        match firstNonEmptyLine (splitOnNl cleaned) with
        | some ln => ln.take maxLength
        | none => cleaned

/-- Metadata mapping of an artifact, modelled as an association list with
uninterpreted values. -/
abbrev Metadata := List (List Char × List Char)

/-- Version snapshot record (ArtifactVersion in
src/backend/app/models/artifacts.py and the version_history entries read by
the service). -/
structure Snapshot where
  version : Nat
  title : List Char
  content : List Char
  metadata : Metadata
  updatedAt : Nat
  contentLength : Nat
  titleChanged : Bool
  contentChanged : Bool

deriving DecidableEq

/-- Live state of one artifact row: current fields plus the embedded
version history (newest first) and the lifetime edit counter
(version_count). -/
structure ArtifactState where
  title : List Char
  content : List Char
  metadata : Metadata
  version : Nat
  history : List Snapshot
  versionCount : Nat
  updatedAt : Nat

deriving DecidableEq

/-- Modelled from the spec: the database-side versioning trigger
(record_mutation, spec section 4.3) is not part of the repository sources
under src/ - only its effects are visible through the service and its
tests.  Per the spec: if neither title nor content changed the write is a
versioning no-op (version not incremented, no snapshot recorded); otherwise
a snapshot of the pre-mutation state (carrying the old version number and
the change flags) is prepended, the history is trimmed to the retention cap
of 20, the edit counter is incremented and the version moves to
old version + 1. -/
def recordMutation (st : ArtifactState) (newTitle newContent : List Char)
    (newMetadata : Metadata) (now : Nat) : ArtifactState :=
  let titleChanged : Bool := decide (newTitle ≠ st.title)
  let contentChanged : Bool := decide (newContent ≠ st.content)
  if titleChanged || contentChanged then
    { title := newTitle, content := newContent, metadata := newMetadata,
      version := st.version + 1,
      history := ({ version := st.version, title := st.title,
                    content := st.content, metadata := st.metadata,
                    updatedAt := st.updatedAt, contentLength := st.content.length,
                    titleChanged := titleChanged,
                    contentChanged := contentChanged } :: st.history).take 20,
      versionCount := st.versionCount + 1, updatedAt := now }
  else { st with metadata := newMetadata, updatedAt := now }

/-- Request payload of create (ArtifactCreate in
src/backend/app/models/artifacts.py): optional title, required content. -/
structure ArtifactCreateData where
  title : Option (List Char)
  content : List Char
  metadata : Metadata

/-- ArtifactService.create (src/backend/app/services/artifacts.py lines
25-42): the title falls back to extraction from the content when absent or
empty (Python truthiness); a fresh artifact starts at version 1 with empty
history and a zero edit counter. -/
def createArtifact (d : ArtifactCreateData) (now : Nat) : ArtifactState :=
  { title := match d.title with
      | some t => if t = [] then extractTitleFromContent d.content else t
      | none => extractTitleFromContent d.content,
    content := d.content, metadata := d.metadata,
    version := 1, history := [], versionCount := 0, updatedAt := now }

/-- Request payload of update (ArtifactUpdate in
src/backend/app/models/artifacts.py): every field optional. -/
structure ArtifactUpdateData where
  title : Option (List Char)
  content : Option (List Char)
  metadata : Option Metadata

/-- ArtifactService.update on an owned artifact
(src/backend/app/services/artifacts.py lines 97-120): only fields that are
not None are written; a provided content without a provided title re-derives
the title from the new content; an empty update payload is a no-op returning
the existing row; a real write goes through the versioning trigger. -/
def serviceUpdate (st : ArtifactState) (d : ArtifactUpdateData) (now : Nat) :
    ArtifactState :=
  let updTitle : Option (List Char) :=
    match d.title, d.content with
    | some t, _ => some t
    | none, some c => some (extractTitleFromContent c)
    | none, none => none
  if d.title = none ∧ d.content = none ∧ d.metadata = none then st
  else
    recordMutation st (updTitle.getD st.title) (d.content.getD st.content)
      (d.metadata.getD st.metadata) now

/-- One row of the artifacts table with its owner. -/
structure StoredArtifact where
  id : Nat
  userId : Nat
  state : ArtifactState

deriving DecidableEq

/-- ArtifactService.get (src/backend/app/services/artifacts.py lines
44-59): query by id, then the ownership check turns a row owned by a
different user into the same None as a missing row. -/
def dbGet (db : List StoredArtifact) (artifactId : Nat) (userId : Option Nat) :
    Option StoredArtifact :=
  match db.find? (fun a => decide (a.id = artifactId)) with
  | none => none
  | some a =>
    match userId with
    | some u => if a.userId ≠ u then none else some a
    | none => some a

/-- ArtifactService.update (src/backend/app/services/artifacts.py lines
85-120): the initial get with the caller identity yields None for a missing
or foreign artifact, which update propagates. -/
def updateOwned (db : List StoredArtifact) (artifactId userId : Nat)
    (d : ArtifactUpdateData) (now : Nat) : Option ArtifactState :=
  match dbGet db artifactId (some userId) with
  | none => none
  | some a =>
    if a.userId ≠ userId then none
    else some (serviceUpdate a.state d now)

/-- ArtifactService.get_version (src/backend/app/services/artifacts.py
lines 220-261): the current version is synthesized from the live row with
both change flags false; any other number is looked up by a linear scan of
the history; absence gives None. -/
def getVersion (st : ArtifactState) (versionNumber : Nat) (now : Nat) :
    Option Snapshot :=
  if versionNumber = st.version then
    some { version := st.version, title := st.title, content := st.content,
           metadata := st.metadata, updatedAt := now,
           contentLength := st.content.length,
           titleChanged := false, contentChanged := false }
  else st.history.find? (fun s => decide (s.version = versionNumber))

/-- ArtifactService.restore_version (src/backend/app/services/artifacts.py
lines 263-287): fetch the target snapshot, then write its title, content
and metadata back through the normal mutation path. -/
def restoreVersion (st : ArtifactState) (versionNumber : Nat) (now : Nat) :
    Option ArtifactState :=
  match getVersion st versionNumber now with
  | none => none
  | some v => some (recordMutation st v.title v.content v.metadata now)

def c3St : ArtifactState :=
  { title := "T".toList, content := "A".toList, metadata := [], version := 2,
    history := [{ version := 1, title := "T".toList, content := "old".toList,
                  metadata := [], updatedAt := 0, contentLength := 3,
                  titleChanged := false, contentChanged := true }],
    versionCount := 1, updatedAt := 1 }

def c4State : ArtifactState :=
  { title := "T".toList, content := "A".toList, metadata := [], version := 1,
    history := [], versionCount := 0, updatedAt := 0 }

def c4Db : List StoredArtifact := [{ id := 1, userId := 10, state := c4State }]

def c1WitSnap : Snapshot :=
  { version := 1, title := "T".toList, content := "A".toList, metadata := [],
    updatedAt := 0, contentLength := 1, titleChanged := false, contentChanged := true }

def c1WitSt : ArtifactState :=
  { title := "T".toList, content := "B".toList, metadata := [], version := 2,
    history := [c1WitSnap], versionCount := 1, updatedAt := 1 }

def c1St : ArtifactState :=
  serviceUpdate (serviceUpdate (createArtifact ⟨some ("T".toList), "A".toList, []⟩ 0)
      ⟨some ("T".toList), some ("B".toList), none⟩ 1)
    ⟨some ("T".toList), some ("A".toList), none⟩ 2

theorem splitOnNl_ne_nil (s : List Char) : splitOnNl s ≠ [] := by
  induction s with
  | nil => simp [splitOnNl]
  | cons c rest ih =>
    simp only [splitOnNl]
    split
    · simp
    · cases h : splitOnNl rest with
      | nil => simp
      | cons l ls => simp

theorem joinNl_splitOnNl (s : List Char) : joinNl (splitOnNl s) = s := by
  induction s with
  | nil => decide
  | cons c rest ih =>
    by_cases hc : c = '\n'
    · subst hc
      rw [show splitOnNl ('\n' :: rest) = [] :: splitOnNl rest from by
        simp [splitOnNl]]
      cases h : splitOnNl rest with
      | nil => exact absurd h (splitOnNl_ne_nil rest)
      | cons l ls =>
        rw [h] at ih
        simp only [joinNl]
        rw [ih]
        simp
    · simp only [splitOnNl, if_neg hc]
      cases h : splitOnNl rest with
      | nil => exact absurd h (splitOnNl_ne_nil rest)
      | cons l ls =>
        rw [h] at ih
        cases ls with
        | nil =>
          simp only [joinNl] at ih ⊢
          rw [ih]
        | cons l2 ls2 =>
          simp only [joinNl] at ih ⊢
          rw [List.cons_append, ih]

theorem splitOnNl_no_newline (s : List Char) :
    ∀ l ∈ splitOnNl s, '\n' ∉ l := by
  induction s with
  | nil => intro l hl; simp [splitOnNl] at hl; simp [hl]
  | cons c rest ih =>
    intro l hl
    simp only [splitOnNl] at hl
    by_cases hc : c = '\n'
    · simp [hc] at hl
      rcases hl with h | h
      · simp [h]
      · exact ih l h
    · simp [hc] at hl
      cases h : splitOnNl rest with
      | nil => exact absurd h (splitOnNl_ne_nil rest)
      | cons l0 ls0 =>
        rw [h] at hl
        simp at hl
        rcases hl with h1 | h1
        · subst h1
          intro hmem
          rcases List.mem_cons.mp hmem with h2 | h2
          · exact hc h2.symm
          · exact ih l0 (h ▸ List.mem_cons_self l0 ls0) h2
        · exact ih l (h ▸ List.mem_cons_of_mem l0 h1)

theorem splitOnNl_of_no_newline (l : List Char) (h : '\n' ∉ l) :
    splitOnNl l = [l] := by
  induction l with
  | nil => rfl
  | cons c rest ih =>
    simp at h
    have hc : ¬ (c = '\n') := fun hh => h.1 hh.symm
    simp only [splitOnNl, if_neg hc]
    rw [ih h.2]

theorem splitOnNl_append_newline (l t : List Char) (h : '\n' ∉ l) :
    splitOnNl (l ++ '\n' :: t) = l :: splitOnNl t := by
  induction l with
  | nil => simp [splitOnNl]
  | cons c rest ih =>
    simp at h
    have hc : ¬ (c = '\n') := fun hh => h.1 hh.symm
    rw [List.cons_append]
    simp only [splitOnNl, if_neg hc]
    rw [ih h.2]

theorem splitOnNl_joinNl (ls : List (List Char)) (hne : ls ≠ [])
    (h : ∀ l ∈ ls, '\n' ∉ l) : splitOnNl (joinNl ls) = ls := by
  induction ls with
  | nil => exact absurd rfl hne
  | cons l rest ih =>
    cases rest with
    | nil =>
      simp only [joinNl]
      exact splitOnNl_of_no_newline l (h l (List.mem_cons_self l []))
    | cons l2 rest2 =>
      simp only [joinNl]
      rw [splitOnNl_append_newline l (joinNl (l2 :: rest2))
        (h l (List.mem_cons_self l _))]
      rw [ih (by simp) (fun x hx => h x (List.mem_cons_of_mem l hx))]

theorem eraseIdx_append_singleton (ls : List (List Char)) (t : List Char) :
    (ls ++ [t]).eraseIdx ls.length = ls := by
  induction ls with
  | nil => rfl
  | cons l rest ih =>
    rw [List.cons_append, List.length_cons]
    show l :: (rest ++ [t]).eraseIdx rest.length = l :: rest
    rw [ih]

theorem eraseIdx_take_cons_drop (ls : List (List Char)) (t : List Char)
    (i : Nat) (h : i ≤ ls.length) :
    (ls.take i ++ t :: ls.drop i).eraseIdx i = ls := by
  induction i generalizing ls with
  | zero => simp [List.eraseIdx]
  | succ n ih =>
    cases ls with
    | nil => simp at h
    | cons l rest =>
      rw [List.take_succ_cons, List.drop_succ_cons, List.cons_append]
      show l :: (rest.take n ++ t :: rest.drop n).eraseIdx n = l :: rest
      rw [ih rest (by simpa using h)]

theorem insertAtLine_eq_none_iff (content : List Char) (n : Int) (text : List Char) :
    insertAtLine content n text = none ↔
      (n < 1 ∨ ((splitOnNl content).length : Int) + 1 < n) := by
  simp only [insertAtLine]
  split
  · rename_i h
    simpa using h
  · rename_i h
    split <;> simpa using h

/-- C7: insert_at_line fails with RangeError exactly when the 1-based line
number is below 1 or above total_lines + 1 (lines obtained by splitting on
newline); in particular it fails for 0 and total_lines + 2, succeeds on the
whole range 1 ..= total_lines + 1, and at total_lines + 1 it appends the text
as a new final line. -/
theorem C7_insert_at_line_range : ∀ (content text : List Char),
    (∀ n : Int, insertAtLine content n text = none ↔
      (n < 1 ∨ ((splitOnNl content).length : Int) + 1 < n))
    ∧ insertAtLine content 0 text = none
    ∧ insertAtLine content (((splitOnNl content).length : Int) + 2) text = none
    ∧ (∀ n : Int, 1 ≤ n → n ≤ ((splitOnNl content).length : Int) + 1 →
        (insertAtLine content n text).isSome = true)
    ∧ insertAtLine content (((splitOnNl content).length : Int) + 1) text
        = some (joinNl (splitOnNl content ++ [text])) := by
  intro content text
  refine ⟨fun n => insertAtLine_eq_none_iff content n text, ?_, ?_, ?_, ?_⟩
  · rw [insertAtLine_eq_none_iff]
    left
    norm_num
  · rw [insertAtLine_eq_none_iff]
    right
    omega
  · intro n h1 h2
    cases hi : insertAtLine content n text with
    | none =>
      have := (insertAtLine_eq_none_iff content n text).mp hi
      omega
    | some v => rfl
  · have hcond : ¬ ((((splitOnNl content).length : Int) + 1) < 1 ∨
        ((splitOnNl content).length : Int) + 1 < ((splitOnNl content).length : Int) + 1) := by
      omega
    simp only [insertAtLine, if_neg hcond]
    have hidx : ((((splitOnNl content).length : Int) + 1) - 1).toNat
        = (splitOnNl content).length := by omega
    rw [hidx, if_pos rfl]

/-- C7 witness: inserting at line 2 of a two-line content succeeds. -/
theorem C7_witness : (insertAtLine ("a\nb".toList) 2 ("c".toList)).isSome = true :=
  (C7_insert_at_line_range ("a\nb".toList) ("c".toList)).2.2.2.1 2 (by decide) (by decide)

/-- C8 (amended): for text containing no newline, inserting it at a valid
line number n and then removing the n-th line of the result restores the
original content. -/
theorem C8_insert_then_remove : ∀ (C T : List Char) (n : Int), '\n' ∉ T →
    1 ≤ n → n ≤ ((splitOnNl C).length : Int) + 1 →
    ∃ R, insertAtLine C n T = some R ∧
      joinNl ((splitOnNl R).eraseIdx (n - 1).toNat) = C := by
  intro C T n hT h1 h2
  have hcond : ¬ (n < 1 ∨ ((splitOnNl C).length : Int) + 1 < n) := by omega
  simp only [insertAtLine, if_neg hcond]
  have hidxle : (n - 1).toNat ≤ (splitOnNl C).length := by omega
  have hnoNl : ∀ l ∈ splitOnNl C, '\n' ∉ l := splitOnNl_no_newline C
  by_cases he : (n - 1).toNat = (splitOnNl C).length
  · rw [if_pos he]
    refine ⟨_, rfl, ?_⟩
    rw [splitOnNl_joinNl (splitOnNl C ++ [T]) (by simp) ?_]
    · rw [he, eraseIdx_append_singleton]
      exact joinNl_splitOnNl C
    · intro l hl
      rcases List.mem_append.mp hl with h | h
      · exact hnoNl l h
      · simp at h
        subst h
        exact hT
  · rw [if_neg he]
    refine ⟨_, rfl, ?_⟩
    rw [splitOnNl_joinNl _ (by simp) ?_]
    · rw [eraseIdx_take_cons_drop (splitOnNl C) T _ hidxle]
      exact joinNl_splitOnNl C
    · intro l hl
      rcases List.mem_append.mp hl with h | h
      · exact hnoNl l (List.take_subset _ _ h)
      · rcases List.mem_cons.mp h with h | h
        · subst h
          exact hT
        · exact hnoNl l (List.drop_subset _ _ h)

/-- C8 witness: inserting a newline-free line in the middle and removing it
restores the original two-line content. -/
theorem C8_witness :
    ∃ R, insertAtLine ("a\nb".toList) 2 ("c".toList) = some R ∧
      joinNl ((splitOnNl R).eraseIdx ((2 : Int) - 1).toNat) = "a\nb".toList :=
  C8_insert_then_remove ("a\nb".toList) ("c".toList) 2 (by decide) (by decide) (by decide)

/-- C8 counterexample: with inserted text containing a newline, removing the
n-th line of the result does not restore the original content, even though n
is valid: the claim as stated (for every text) is false. -/
theorem C8_counterexample :
    (1 : Int) ≤ 1 ∧ (1 : Int) ≤ ((splitOnNl ("x".toList)).length : Int) + 1 ∧
    insertAtLine ("x".toList) 1 ("a\nb".toList) = some ("a\nb\nx".toList) ∧
    joinNl ((splitOnNl ("a\nb\nx".toList)).eraseIdx ((1 : Int) - 1).toNat)
      ≠ "x".toList := by decide

theorem pyRepAux_nonneg (old new : List Char) :
    ∀ (l : List Char) (s : Nat) (n : Int), 0 ≤ n →
      pyRepAux old new l s n = specReplaceAux old new l s n.toNat := by
  intro l
  induction l with
  | nil => intro s n h; rfl
  | cons c rest ih =>
    intro s n h
    cases s with
    | succ s0 =>
      simp only [pyRepAux, specReplaceAux]
      exact ih s0 n h
    | zero =>
      by_cases hm : listStarts old (c :: rest) = true
      · by_cases hn : n = 0
        · subst hn
          simp only [pyRepAux, specReplaceAux, Int.toNat_zero]
          rw [if_neg (by simp), if_neg (by simp)]
          rw [ih 0 0 le_rfl, Int.toNat_zero]
        · have hpos : 0 < n := lt_of_le_of_ne h (fun hh => hn hh.symm)
          simp only [pyRepAux, specReplaceAux]
          rw [if_pos ⟨hn, hm⟩, if_pos ⟨by omega, hm⟩]
          rw [ih (old.length - 1) (n - 1) (by omega)]
          have : (n - 1).toNat = n.toNat - 1 := by omega
          rw [this]
      · simp only [pyRepAux, specReplaceAux]
        rw [if_neg (by intro hh; exact hm hh.2), if_neg (by intro hh; exact hm hh.2)]
        rw [ih 0 n h]

theorem pyRepAux_neg (old new : List Char) :
    ∀ (l : List Char) (s : Nat) (n : Int), n < 0 →
      pyRepAux old new l s n = specReplaceAux old new l s (pyCountAux old l s) := by
  intro l
  induction l with
  | nil => intro s n h; rfl
  | cons c rest ih =>
    intro s n h
    cases s with
    | succ s0 =>
      simp only [pyRepAux, specReplaceAux, pyCountAux]
      exact ih s0 n h
    | zero =>
      by_cases hm : listStarts old (c :: rest) = true
      · simp only [pyRepAux, specReplaceAux, pyCountAux, if_pos hm]
        rw [if_pos ⟨by omega, hm⟩, if_pos ⟨by omega, hm⟩]
        rw [ih (old.length - 1) (n - 1) (by omega)]
        have : 1 + pyCountAux old rest (old.length - 1) - 1
            = pyCountAux old rest (old.length - 1) := by omega
        rw [this]
      · simp only [pyRepAux, specReplaceAux, pyCountAux, if_neg hm]
        rw [if_neg (by intro hh; exact hm hh.2), if_neg (by intro hh; exact hm hh.2)]
        rw [ih 0 n h]

theorem specReplaceAux_ge_count (old new : List Char) :
    ∀ (l : List Char) (s : Nat) (k : Nat), pyCountAux old l s ≤ k →
      specReplaceAux old new l s k = specReplaceAux old new l s (pyCountAux old l s) := by
  intro l
  induction l with
  | nil => intro s k h; rfl
  | cons c rest ih =>
    intro s k h
    cases s with
    | succ s0 =>
      simp only [specReplaceAux, pyCountAux] at h ⊢
      exact ih s0 k h
    | zero =>
      by_cases hm : listStarts old (c :: rest) = true
      · simp only [pyCountAux, if_pos hm] at h ⊢
        simp only [specReplaceAux]
        rw [if_pos ⟨by omega, hm⟩, if_pos ⟨by omega, hm⟩]
        rw [ih (old.length - 1) (k - 1) (by omega)]
        have : 1 + pyCountAux old rest (old.length - 1) - 1
            = pyCountAux old rest (old.length - 1) := by omega
        rw [this, ih (old.length - 1) _ le_rfl]
      · simp only [pyCountAux, if_neg hm] at h ⊢
        simp only [specReplaceAux]
        rw [if_neg (by intro hh; exact hm hh.2), if_neg (by intro hh; exact hm hh.2)]
        rw [ih 0 k h]

/-- C5 counterexample: with the negative limit -1 the code replaces every
occurrence (Python replace treats a negative count as replace-all), so the
result is not the content with at most limit occurrences replaced: the claim
fails for negative limits. -/
theorem C5_counterexample :
    ¬ c5ClaimAt ("aa".toList) ("a".toList) ("b".toList) (some (-1)) := by
  intro h
  have h2 := h.2 (by decide) (by decide)
  exact absurd h2 (by decide)

/-- C5 (amended): the claim holds for every unset or non-negative limit. -/
theorem C5_find_and_replace : ∀ (content old new : List Char) (limit : Option Int),
    (∀ k, limit = some k → 0 ≤ k) → c5ClaimAt content old new limit := by
  intro content old new limit hk
  constructor
  · intro hold hocc
    simp [findAndReplace, if_neg hold, hocc]
  · intro hold hocc
    simp only [findAndReplace, if_neg hold, if_neg hocc]
    cases limit with
    | none =>
      simp only [c5SpecCount, Int.toNat_natCast]
      rw [show pyReplace old new content (-1)
          = specReplace old new content (pyCountOcc old content) from
        pyRepAux_neg old new content 0 (-1) (by omega)]
    | some k =>
      have hk0 : 0 ≤ k := hk k rfl
      simp only [c5SpecCount, specReplace]
      rw [show pyReplace old new content k
          = specReplaceAux old new content 0 k.toNat from
        pyRepAux_nonneg old new content 0 k hk0]
      by_cases hko : k ≤ (pyCountOcc old content : Int)
      · rw [min_eq_left hko]
      · rw [min_eq_right (le_of_not_le hko)]
        simp only [Int.toNat_natCast, pyCountOcc]
        rw [specReplaceAux_ge_count old new content 0 k.toNat (by
          simp only [pyCountOcc] at hko
          omega)]

/-- C5 witness: a concrete run with limit 1 on a content with two
occurrences replaces only the first one and reports count 1. -/
theorem C5_witness :
    findAndReplace ("aba".toList) ("a".toList) ("X".toList) (some 1)
      = Except.ok ("Xba".toList, 1) := by
  have h := (C5_find_and_replace ("aba".toList) ("a".toList) ("X".toList) (some 1)
    (fun k hk => by cases hk; decide)).2 (by decide) (by decide)
  rw [h]
  decide

theorem countMatchingLines_cons_pos (old ln : List Char) (rest : List (List Char))
    (hm : containsSub old ln = true) :
    countMatchingLines old (ln :: rest) = countMatchingLines old rest + 1 := by
  simp [countMatchingLines, List.filter_cons, hm]

theorem countMatchingLines_cons_neg (old ln : List Char) (rest : List (List Char))
    (hm : ¬ containsSub old ln = true) :
    countMatchingLines old (ln :: rest) = countMatchingLines old rest := by
  simp [countMatchingLines, List.filter_cons, hm]

theorem numLineEntries_cons_line (i : Nat) (t : List Char) (ctx : List CtxEntry) :
    numLineEntries (CtxEntry.line i t :: ctx) = numLineEntries ctx + 1 := by
  simp [numLineEntries]

theorem ctxHasMore_cons_line (i : Nat) (t : List Char) (ctx : List CtxEntry) :
    ctxHasMore (CtxEntry.line i t :: ctx) = ctxHasMore ctx := by
  simp [ctxHasMore]

theorem collect_spec (old : List Char) (occ : Nat) :
    ∀ (lines : List (List Char)) (i cnt : Nat), cnt < 3 →
      numLineEntries (collectCtx old occ lines i cnt) ≤ 3 - cnt ∧
      ctxHasMore (collectCtx old occ lines i cnt)
        = decide (3 - cnt ≤ countMatchingLines old lines) ∧
      (∀ n, CtxEntry.more n ∈ collectCtx old occ lines i cnt → n = occ - 3) ∧
      (∀ j t, CtxEntry.line j t ∈ collectCtx old occ lines i cnt →
        i ≤ j ∧ ∃ ln, lines.get? (j - i) = some ln ∧ containsSub old ln = true ∧
          t = (pyStrip ln).take 80) := by
  intro lines
  induction lines with
  | nil =>
    intro i cnt hcnt
    refine ⟨by simp [collectCtx, numLineEntries], ?_, by simp [collectCtx], by simp [collectCtx]⟩
    simp only [collectCtx, ctxHasMore, List.any_nil]
    have : ¬ (3 - cnt ≤ countMatchingLines old []) := by
      simp [countMatchingLines]
      omega
    simp [this]
  | cons ln rest ih =>
    intro i cnt hcnt
    by_cases hm : containsSub old ln = true
    · by_cases h3 : 3 ≤ cnt + 1
      · have hcnt2 : cnt = 2 := by omega
        simp only [collectCtx, if_pos hm, if_pos h3]
        refine ⟨?_, ?_, ?_, ?_⟩
        · simp [numLineEntries]
          omega
        · have hle : 3 - cnt ≤ countMatchingLines old (ln :: rest) := by
            rw [countMatchingLines_cons_pos old ln rest hm]
            omega
          simp [ctxHasMore, hle]
        · intro n hn
          simp at hn
          rw [hn]
        · intro j t hjt
          simp at hjt
          obtain ⟨hj1, hj2⟩ := hjt
          refine ⟨by omega, ln, ?_, hm, hj2⟩
          rw [hj1]
          simp
      · have hcnt2 : cnt + 1 < 3 := by omega
        simp only [collectCtx, if_pos hm, if_neg h3]
        obtain ⟨ih1, ih2, ih3, ih4⟩ := ih (i + 1) (cnt + 1) hcnt2
        refine ⟨?_, ?_, ?_, ?_⟩
        · rw [numLineEntries_cons_line]
          omega
        · rw [ctxHasMore_cons_line, ih2, decide_eq_decide,
            countMatchingLines_cons_pos old ln rest hm]
          omega
        · intro n hn
          rcases List.mem_cons.mp hn with h | h
          · exact absurd h (by simp)
          · exact ih3 n h
        · intro j t hjt
          rcases List.mem_cons.mp hjt with h | h
          · injection h with h1 h2
            subst h1
            subst h2
            refine ⟨le_refl _, ln, ?_, hm, rfl⟩
            simp
          · obtain ⟨hij, ln0, hget, hc, ht⟩ := ih4 j t h
            refine ⟨by omega, ln0, ?_, hc, ht⟩
            have : j - i = (j - (i + 1)) + 1 := by omega
            rw [this, List.get?_cons_succ]
            exact hget
    · simp only [collectCtx, if_neg hm]
      obtain ⟨ih1, ih2, ih3, ih4⟩ := ih (i + 1) cnt hcnt
      refine ⟨ih1, ?_, ih3, ?_⟩
      · rw [ih2, decide_eq_decide, countMatchingLines_cons_neg old ln rest hm]
      · intro j t hjt
        obtain ⟨hij, ln0, hget, hc, ht⟩ := ih4 j t hjt
        refine ⟨by omega, ln0, ?_, hc, ht⟩
        have : j - i = (j - (i + 1)) + 1 := by omega
        rw [this, List.get?_cons_succ]
        exact hget

/-- C6 counterexample: with exactly 3 occurrences on 3 distinct lines the
message still carries the marker (reading "... and 0 more") although no
match exists beyond the enumerated lines, so the "when and only when"
part of the claim fails. -/
theorem C6_counterexample : ¬ c6ClaimAt ("a\na\na".toList) ("a".toList) := by
  intro h
  have h2 := h 3 [CtxEntry.line 1 ("a".toList), CtxEntry.line 2 ("a".toList),
    CtxEntry.line 3 ("a".toList), CtxEntry.more 0] (by decide)
  exact absurd (h2.2.mp (by decide)) (by decide)

/-- C6 (amended): on an ambiguous match the error context enumerates at most
3 matching lines (1-based numbers, stripped lines truncated to 80 chars),
and carries the "+N more" marker, with N = occurrences - 3, exactly when at
least 3 matching lines exist (so with exactly 3 matching lines the marker
reads "+0 more"). -/
theorem C6_ambiguous_context : ∀ (content old : List Char), old ≠ [] →
    1 < pyCountOcc old content →
    ∃ ctx, validateUniqueMatch content old false
        = Except.error (TextErr.ambiguous (pyCountOcc old content) ctx) ∧
      numLineEntries ctx ≤ 3 ∧
      (ctxHasMore ctx = true ↔ 3 ≤ countMatchingLines old (splitOnNl content)) ∧
      (∀ n, CtxEntry.more n ∈ ctx → n = pyCountOcc old content - 3) ∧
      (∀ j t, CtxEntry.line j t ∈ ctx → 1 ≤ j ∧
        ∃ ln, (splitOnNl content).get? (j - 1) = some ln ∧
          containsSub old ln = true ∧ t = (pyStrip ln).take 80) := by
  intro content old hold hocc
  obtain ⟨h1, h2, h3, h4⟩ :=
    collect_spec old (pyCountOcc old content) (splitOnNl content) 1 0 (by omega)
  refine ⟨collectCtx old (pyCountOcc old content) (splitOnNl content) 1 0, ?_, ?_, ?_, h3, h4⟩
  · simp only [validateUniqueMatch, if_neg hold]
    rw [if_neg (by omega), if_pos ⟨hocc, by trivial⟩]
  · simpa using h1
  · rw [h2]
    simp

/-- C6 witness: four single-character lines, four occurrences; the context
enumerates the first 3 lines and the marker reads "+1 more". -/
theorem C6_witness :
    ∃ ctx, validateUniqueMatch ("a\na\na\na".toList) ("a".toList) false
        = Except.error (TextErr.ambiguous
            (pyCountOcc ("a".toList) ("a\na\na\na".toList)) ctx) ∧
      numLineEntries ctx ≤ 3 ∧
      (ctxHasMore ctx = true ↔
        3 ≤ countMatchingLines ("a".toList) (splitOnNl ("a\na\na\na".toList))) ∧
      (∀ n, CtxEntry.more n ∈ ctx →
        n = pyCountOcc ("a".toList) ("a\na\na\na".toList) - 3) ∧
      (∀ j t, CtxEntry.line j t ∈ ctx → 1 ≤ j ∧
        ∃ ln, (splitOnNl ("a\na\na\na".toList)).get? (j - 1) = some ln ∧
          containsSub ("a".toList) ln = true ∧ t = (pyStrip ln).take 80) :=
  C6_ambiguous_context ("a\na\na\na".toList) ("a".toList) (by decide) (by decide)

theorem take_cond_eq (maxLength : Nat) (l : List Char) :
    (if maxLength < l.length then l.take maxLength else l) = l.take maxLength := by
  split
  · rfl
  · rename_i h
    rw [List.take_of_length_le (by omega)]

theorem dropWhile_first (p : Char → Bool) (l : List Char) :
    ∀ c cs, l.dropWhile p = c :: cs → p c = false := by
  induction l with
  | nil => intro c cs h; simp [List.dropWhile] at h
  | cons a rest ih =>
    intro c cs h
    by_cases ha : p a = true
    · rw [List.dropWhile_cons_of_pos ha] at h
      exact ih c cs h
    · rw [List.dropWhile_cons_of_neg ha] at h
      injection h with h1 h2
      rw [← h1]
      exact Bool.eq_false_iff.mpr ha

theorem pyRStrip_decomp (m : List Char) :
    ∃ t, m = pyRStrip m ++ t ∧ ∀ c ∈ t, pyIsSpace c = true := by
  refine ⟨(m.reverse.takeWhile pyIsSpace).reverse, ?_, ?_⟩
  · conv_lhs => rw [← List.reverse_reverse m,
      ← List.takeWhile_append_dropWhile pyIsSpace m.reverse]
    rw [List.reverse_append]
    rfl
  · intro c hc
    rw [List.mem_reverse] at hc
    exact List.mem_takeWhile_imp hc

theorem pyStrip_head_not_space (l : List Char) :
    ∀ c cs, pyStrip l = c :: cs → pyIsSpace c = false := by
  intro c cs h
  obtain ⟨t, ht, _⟩ := pyRStrip_decomp (pyLStrip l)
  have hd : l.dropWhile pyIsSpace = c :: (cs ++ t) := by
    have : pyLStrip l = (c :: cs) ++ t := by
      rw [ht]
      unfold pyStrip at h
      rw [h]
    simpa [pyLStrip] using this
  exact dropWhile_first pyIsSpace l c (cs ++ t) hd

theorem pyStrip_eq_nil_all_space (ln : List Char) (h : pyStrip ln = []) :
    ∀ c ∈ ln, pyIsSpace c = true := by
  intro c hc
  rw [← List.takeWhile_append_dropWhile pyIsSpace ln] at hc
  rcases List.mem_append.mp hc with hm | hm
  · exact List.mem_takeWhile_imp hm
  · obtain ⟨t, ht, hts⟩ := pyRStrip_decomp (pyLStrip ln)
    unfold pyStrip at h
    rw [h] at ht
    simp only [List.nil_append] at ht
    apply hts
    rw [← ht]
    simpa [pyLStrip] using hm

theorem fnel_none_all_strip_nil :
    ∀ (lines : List (List Char)), firstNonEmptyLine lines = none →
      ∀ ln ∈ lines, pyStrip ln = [] := by
  intro lines
  induction lines with
  | nil => intro _ ln h; simp at h
  | cons l0 rest ih =>
    intro h ln hln
    simp only [firstNonEmptyLine] at h
    by_cases h0 : pyStrip l0 = []
    · rw [if_pos h0] at h
      rcases List.mem_cons.mp hln with h1 | h1
      · rw [h1]
        exact h0
      · exact ih h ln h1
    · rw [if_neg h0] at h
      exact absurd h (by simp)

theorem all_space_of_splitOnNl :
    ∀ (s : List Char), (∀ ln ∈ splitOnNl s, ∀ c ∈ ln, pyIsSpace c = true) →
      ∀ c ∈ s, pyIsSpace c = true := by
  intro s
  induction s with
  | nil => intro _ c h; simp at h
  | cons a rest ih =>
    intro h c hc
    by_cases ha : a = '\n'
    · have hrest : ∀ ln ∈ splitOnNl rest, ∀ x ∈ ln, pyIsSpace x = true := by
        intro ln hln x hx
        apply h ln _ x hx
        simp only [splitOnNl, if_pos ha]
        exact List.mem_cons_of_mem [] hln
      rcases List.mem_cons.mp hc with h1 | h1
      · rw [h1, ha]
        decide
      · exact ih hrest c h1
    · cases hsp : splitOnNl rest with
      | nil => exact absurd hsp (splitOnNl_ne_nil rest)
      | cons l0 ls0 =>
        have hcons : splitOnNl (a :: rest) = (a :: l0) :: ls0 := by
          simp only [splitOnNl, if_neg ha, hsp]
        have hhead := h (a :: l0) (by rw [hcons]; exact List.mem_cons_self _ _)
        have hrest : ∀ ln ∈ splitOnNl rest, ∀ x ∈ ln, pyIsSpace x = true := by
          intro ln hln x hx
          rw [hsp] at hln
          rcases List.mem_cons.mp hln with h1 | h1
          · apply hhead
            rw [h1] at hx
            exact List.mem_cons_of_mem a hx
          · exact h ln (by rw [hcons]; exact List.mem_cons_of_mem _ h1) x hx
      -- goal: pyIsSpace c = true for c ∈ a :: rest
        rcases List.mem_cons.mp hc with h1 | h1
        · apply hhead
          rw [h1]
          exact List.mem_cons_self _ _
        · exact ih hrest c h1

theorem fnel_none_strip_nil (content : List Char)
    (h : firstNonEmptyLine (splitOnNl (pyStrip content)) = none) :
    pyStrip content = [] := by
  cases hc : pyStrip content with
  | nil => rfl
  | cons c cs =>
    have hall : ∀ x ∈ pyStrip content, pyIsSpace x = true := by
      apply all_space_of_splitOnNl
      intro ln hln x hx
      exact pyStrip_eq_nil_all_space ln
        (fnel_none_all_strip_nil (splitOnNl (pyStrip content)) h ln hln) x hx
    have h1 : pyIsSpace c = true := hall c (by rw [hc]; exact List.mem_cons_self c cs)
    have h2 : pyIsSpace c = false := pyStrip_head_not_space content c cs hc
    rw [h1] at h2
    exact absurd h2 (by simp)

/-- C9: extract_title_from_content agrees everywhere with the cascade the
specification describes: the literal Untitled on empty content, else the
first level-1 heading capture anywhere in the stripped content (strictly
preferred over any level-2 heading regardless of order), else the first
level-2 heading capture, else the first non-empty line, else (content all
whitespace) the cleaned content itself, the first three cases truncated to
max_length characters with no ellipsis appended. -/
theorem C9_extract_title : ∀ (maxLength : Nat) (content : List Char),
    extractTitleFromContentM maxLength content = extractTitleSpec maxLength content := by
  intro maxLength content
  by_cases hc : content = []
  · simp [extractTitleFromContentM, extractTitleSpec, hc]
  · simp only [extractTitleFromContentM, extractTitleSpec, if_neg hc]
    cases h1 : searchH1 (pyStrip content) with
    | some g => simp only [take_cond_eq]
    | none =>
      cases h2 : searchH2 (pyStrip content) with
      | some g => simp only [take_cond_eq]
      | none =>
        cases h3 : firstNonEmptyLine (splitOnNl (pyStrip content)) with
        | some ln => simp only [take_cond_eq]
        | none =>
          have hnil := fnel_none_strip_nil content h3
          rw [hnil]
          simp

theorem recordMutation_noop (st : ArtifactState) (m : Metadata) (now : Nat)
    (nt nc : List Char) (h1 : nt = st.title) (h2 : nc = st.content) :
    recordMutation st nt nc m now = { st with metadata := m, updatedAt := now } := by
  simp only [recordMutation]
  rw [if_neg (by simp [h1, h2])]

theorem recordMutation_bump (st : ArtifactState) (m : Metadata) (now : Nat)
    (nt nc : List Char) (h : ¬ (nt = st.title ∧ nc = st.content)) :
    (recordMutation st nt nc m now).version = st.version + 1 ∧
    (recordMutation st nt nc m now).title = nt ∧
    (recordMutation st nt nc m now).content = nc := by
  simp only [recordMutation]
  rw [if_pos (by
    simp only [Bool.or_eq_true, decide_eq_true_eq]
    tauto)]
  exact ⟨rfl, rfl, rfl⟩

/-- C2: an update that supplies only metadata (title and content both
absent) leaves the artifact version, the lifetime edit counter and the
snapshot history unchanged. -/
theorem C2_metadata_only_update : ∀ (st : ArtifactState) (m : Metadata) (now : Nat),
    (serviceUpdate st ⟨none, none, some m⟩ now).version = st.version ∧
    (serviceUpdate st ⟨none, none, some m⟩ now).versionCount = st.versionCount ∧
    (serviceUpdate st ⟨none, none, some m⟩ now).history = st.history := by
  intro st m now
  have h : serviceUpdate st ⟨none, none, some m⟩ now
      = { st with metadata := m, updatedAt := now } := by
    simp only [serviceUpdate]
    rw [if_neg (by simp)]
    simp only [Option.getD_none, Option.getD_some]
    exact recordMutation_noop st m now st.title st.content rfl rfl
  rw [h]
  exact ⟨rfl, rfl, rfl⟩

/-- C3: get_version synthesizes a snapshot from the live state with both
change flags false when the requested number equals the current version,
otherwise scans the history list for a matching version field, and yields
None when no such entry exists (also after retention-cap eviction). -/
theorem C3_get_version : ∀ (st : ArtifactState) (n now : Nat),
    (n = st.version → getVersion st n now
        = some { version := st.version, title := st.title, content := st.content,
                 metadata := st.metadata, updatedAt := now,
                 contentLength := st.content.length,
                 titleChanged := false, contentChanged := false })
    ∧ (n ≠ st.version → getVersion st n now
        = st.history.find? (fun s => decide (s.version = n)))
    ∧ (n ≠ st.version → (∀ s ∈ st.history, s.version ≠ n) →
        getVersion st n now = none) := by
  intro st n now
  refine ⟨?_, ?_, ?_⟩
  · intro h
    simp only [getVersion, if_pos h]
  · intro h
    simp only [getVersion, if_neg h]
  · intro h hall
    simp only [getVersion, if_neg h]
    rw [List.find?_eq_none]
    intro s hs
    simp
    exact hall s hs

/-- C3 witness: on a concrete artifact at version 2 with one history entry,
requesting version 2 synthesizes from the live state and requesting the
never-recorded version 7 yields None. -/
theorem C3_witness :
    getVersion c3St 2 5 = some { version := 2, title := "T".toList,
                                 content := "A".toList, metadata := [],
                                 updatedAt := 5, contentLength := 1,
                                 titleChanged := false, contentChanged := false } ∧
    getVersion c3St 7 5 = none :=
  ⟨(C3_get_version c3St 2 5).1 rfl,
   (C3_get_version c3St 7 5).2.2 (by decide) (by decide)⟩

/-- C4: get and update return the identical None signal both when the
artifact id does not exist and when the artifact exists but is owned by a
different user, so a non-owner cannot distinguish the two cases. -/
theorem C4_not_found_uniform : ∀ (db : List StoredArtifact) (i u : Nat)
    (d : ArtifactUpdateData) (now : Nat),
    (db.find? (fun a => decide (a.id = i)) = none →
      dbGet db i (some u) = none ∧ updateOwned db i u d now = none)
    ∧ (∀ a, db.find? (fun a => decide (a.id = i)) = some a → a.userId ≠ u →
      dbGet db i (some u) = none ∧ updateOwned db i u d now = none) := by
  intro db i u d now
  constructor
  · intro h
    have hg : dbGet db i (some u) = none := by
      simp only [dbGet, h]
    exact ⟨hg, by simp only [updateOwned, hg]⟩
  · intro a ha hau
    have hg : dbGet db i (some u) = none := by
      simp only [dbGet, ha]
      rw [if_pos hau]
    exact ⟨hg, by simp only [updateOwned, hg]⟩

/-- C4 witness: the unknown id 2 and the foreign-owned id 1 produce the same
None from both get and update. -/
theorem C4_witness :
    (dbGet c4Db 2 (some 10) = none ∧ updateOwned c4Db 2 10 ⟨none, none, none⟩ 0 = none) ∧
    (dbGet c4Db 1 (some 99) = none ∧ updateOwned c4Db 1 99 ⟨none, none, none⟩ 0 = none) :=
  ⟨(C4_not_found_uniform c4Db 2 10 ⟨none, none, none⟩ 0).1 (by decide),
   (C4_not_found_uniform c4Db 1 99 ⟨none, none, none⟩ 0).2
     { id := 1, userId := 10, state := c4State } (by decide) (by decide)⟩

/-- C1 (amended): restoring a fetchable version v below the current one
succeeds and sets the content (and title) to the snapshot values; the
version becomes the pre-restore version plus 1, unless the target snapshot
carries exactly the current title and content, in which case the versioning
trigger treats the write as a no-op and the version stays at the pre-restore
value; the version is never rewound. -/
theorem C1_restore_moves_forward : ∀ (st : ArtifactState) (v now : Nat),
    v < st.version → ∀ s, getVersion st v now = some s →
    ∃ st2, restoreVersion st v now = some st2 ∧
      st2.content = s.content ∧ st2.title = s.title ∧
      (if s.title = st.title ∧ s.content = st.content
       then st2.version = st.version else st2.version = st.version + 1) ∧
      st.version ≤ st2.version := by
  intro st v now hv s hs
  by_cases hb : s.title = st.title ∧ s.content = st.content
  · have hr := recordMutation_noop st s.metadata now s.title s.content hb.1 hb.2
    refine ⟨recordMutation st s.title s.content s.metadata now,
      by simp only [restoreVersion, hs], ?_, ?_, ?_, ?_⟩
    · rw [hr]
      exact hb.2.symm
    · rw [hr]
      exact hb.1.symm
    · rw [if_pos hb, hr]
    · rw [hr]
  · obtain ⟨hv2, ht2, hc2⟩ := recordMutation_bump st s.metadata now s.title s.content hb
    refine ⟨recordMutation st s.title s.content s.metadata now,
      by simp only [restoreVersion, hs], hc2, ht2, ?_, ?_⟩
    · rw [if_neg hb]
      exact hv2
    · rw [hv2]
      omega

/-- C1 witness: restoring version 1 of a version-2 artifact whose content
differs from the snapshot bumps the version to 3 and restores the
content. -/
theorem C1_witness :
    ∃ st2, restoreVersion c1WitSt 1 9 = some st2 ∧
      st2.content = c1WitSnap.content ∧ st2.title = c1WitSnap.title ∧
      (if c1WitSnap.title = c1WitSt.title ∧ c1WitSnap.content = c1WitSt.content
       then st2.version = c1WitSt.version else st2.version = c1WitSt.version + 1) ∧
      c1WitSt.version ≤ st2.version :=
  C1_restore_moves_forward c1WitSt 1 9 (by decide) c1WitSnap (by decide)

/-- C1 counterexample: an artifact edited A to B and back to A sits at
version 3; version 1 is below the current version and fetchable, its content
already equals the current content, and restoring it leaves the version at
3 instead of the claimed 3 + 1 (the versioning no-op rule wins over the
always-bump part of the claim). -/
theorem C1_counterexample :
    c1St.version = 3 ∧ 1 < c1St.version ∧ (getVersion c1St 1 3).isSome = true ∧
    Option.map (fun a => a.content) (restoreVersion c1St 1 3) = some ("A".toList) ∧
    Option.map (fun a => a.version) (restoreVersion c1St 1 3) = some 3 ∧
    ¬ (Option.map (fun a => a.version) (restoreVersion c1St 1 3)
        = some (c1St.version + 1)) := by
  decide

/-- C10: a create input that satisfies the declared content bounds (length
at least 1) consisting only of whitespace, with the title omitted, derives
the empty title, which violates the 1 to 200 character title bound every
artifact is declared to satisfy. -/
theorem C10_auto_title_breaks_bound :
    ∃ c : List Char,
      (1 ≤ c.length ∧ c.length ≤ 100000) ∧ (∀ x ∈ c, pyIsSpace x = true) ∧
      (createArtifact ⟨none, c, []⟩ 0).title = [] ∧
      ¬ (1 ≤ (createArtifact ⟨none, c, []⟩ 0).title.length ∧
        (createArtifact ⟨none, c, []⟩ 0).title.length ≤ 200) := by
  refine ⟨[' '], ?_, ?_, ?_, ?_⟩ <;> decide
